import Mathlib

/-!
Verification of the templated-configuration / parameter-dependency core
(dvc/parsing/context.py, dvc/dependency/param.py) against its
natural-language specification.  Python values are shallowly embedded as
a closed inductive PyVal; Python dicts are insertion-ordered association
lists with unique keys; Python sets are modelled as duplicate-free lists
in insertion order; Python floats are modelled as rationals, which is
exact for every value the spec and tests exercise.
-/

namespace Dvc

/-- Raw nested data as produced by a loader: the Python value universe
the code manipulates (None, bool, int, float, str, list, dict).
Dict keys are strings, as produced by the param-file loaders. -/
inductive PyVal where
  | pynone : PyVal
  | pybool (b : Bool) : PyVal
  | pyint (n : Int) : PyVal
  | pyfloat (q : Rat) : PyVal
  | pystr (s : String) : PyVal
  | pylist (xs : List PyVal) : PyVal
  | pydict (kvs : List (String × PyVal)) : PyVal

/-- A scalar (non-container) Python value: exactly the values that the
tree wraps in a Value leaf. -/
def PyVal.isScalar : PyVal → Bool
  | .pylist _ => false
  | .pydict _ => false
  | _ => true

/-- Association-list lookup, modelling Python dict indexing
(keys are unique in any dict the code builds). -/
def lookupKV {α : Type} : List (String × α) → String → Option α
  | [], _ => none
  | (k, v) :: kvs, key => if k = key then some v else lookupKV kvs key

/-- Python dict assignment d[k] = v: replaces in place if the key exists
(keeping its position, as Python dicts do), else appends. -/
def dictSet {α : Type} : List (String × α) → String → α → List (String × α)
  | [], key, v => [(key, v)]
  | (k, w) :: kvs, key, v =>
      if k = key then (key, v) :: kvs else (k, w) :: dictSet kvs key v

/-- Numeric view of a scalar, modelling that Python compares bool, int
and float numerically (True == 1, 0 == 0.0, and so on). -/
def toNum : PyVal → Option Rat
  | .pybool b => some (if b then 1 else 0)
  | .pyint n => some (n : Rat)
  | .pyfloat q => some q
  | _ => none

mutual
/-- Python structural equality on parsed values, as used by the
workspace-status comparison: numeric coercion across bool/int/float,
elementwise on lists, key-wise (order-insensitive) on dicts. -/
def pyEq : PyVal → PyVal → Bool
  | .pylist xs, .pylist ys => pyEqList xs ys
  | .pydict ds, .pydict es => ds.length = es.length && pyEqDict ds es
  | .pystr s, .pystr t => s = t
  | .pynone, .pynone => true
  | a, b =>
      match toNum a, toNum b with
      | some x, some y => x = y
      | _, _ => false

/-- Elementwise list equality. -/
def pyEqList : List PyVal → List PyVal → Bool
  | [], [] => true
  | x :: xs, y :: ys => pyEq x y && pyEqList xs ys
  | _, _ => false

/-- Every key of the first dict maps, in the second, to an equal value
(with the length check above this is Python dict equality, both dicts
having unique keys). -/
def pyEqDict : List (String × PyVal) → List (String × PyVal) → Bool
  | [], _ => true
  | (k, v) :: ds, es =>
      (match lookupKV es k with
       | some w => pyEq v w
       | none => false) &&
        pyEqDict ds es
end

/-- Provenance record (class Meta of context.py): source identifier
(None means inline/local data) and the path segments from the root. -/
structure Meta where
  source : Option String
  dpaths : List String := []
deriving DecidableEq

/-- Meta.update_path: child provenance is the parent provenance with one
segment (stringified key or index) appended. -/
def Meta.update_path (m : Meta) (p : String) : Meta :=
  { m with dpaths := m.dpaths ++ [p] }

/-- Dotted rendering of the recorded path (Meta.path). -/
def joinDots : List String → String
  | [] => ""
  | [s] => s
  | s :: rest => s ++ "." ++ joinDots rest

def Meta.path (m : Meta) : String := joinDots m.dpaths

mutual
/-- A node of the provenance tree: Value leaf, CtxList, or CtxDict
(classes Value / CtxList / CtxDict of context.py).  A Value payload is
scalar by construction of Container._convert. -/
inductive CtxNode where
  | value (v : PyVal) (m : Meta) : CtxNode
  | clist (m : Meta) (xs : List CtxNode) : CtxNode
  | cdict (m : Meta) (kvs : List (String × Entry)) : CtxNode
/-- What a dict slot of the tree can hold.  Assignments made through
CtxDict.__setitem__ store converted nodes; CtxDict.merge_update writes
into self.data directly, so a slot can also hold an unconverted raw
Python value. -/
inductive Entry where
  | node (n : CtxNode) : Entry
  | raw (v : PyVal) : Entry
end

mutual
/-- Container._convert applied to raw loader data: scalars become Value
leaves, lists become CtxList, dicts become CtxDict, each child with the
parent Meta extended by its key or index. -/
def convertRaw (m : Meta) : PyVal → CtxNode
  | .pylist xs => .clist m (convertListAux m 0 xs)
  | .pydict kvs => .cdict m (convertDictAux m kvs)
  | v => .value v m

/-- Children of a CtxList built by successive insert(len, v):
index i onward. -/
def convertListAux (m : Meta) (i : Nat) : List PyVal → List CtxNode
  | [] => []
  | x :: xs =>
      convertRaw (m.update_path (toString i)) x :: convertListAux m (i + 1) xs

/-- Children of a CtxDict built by update / __setitem__. -/
def convertDictAux (m : Meta) : List (String × PyVal) → List (String × Entry)
  | [] => []
  | (k, x) :: kvs =>
      (k, .node (convertRaw (m.update_path k) x)) :: convertDictAux m kvs
end

/-- Container._convert on a value taken from an existing slot: existing
nodes pass through unchanged (keeping their Meta), raw values are
converted under the parent Meta extended by the key. -/
def convertEntry (parentMeta : Meta) (key : String) : Entry → CtxNode
  | .node n => n
  | .raw v => convertRaw (parentMeta.update_path key) v

/-- The Meta carried by a node. -/
def CtxNode.meta : CtxNode → Meta
  | .value _ m => m
  | .clist m _ => m
  | .cdict m _ => m

/-- Python str.strip character class (whitespace). -/
def isPySpace (c : Char) : Bool :=
  c = ' ' || c = '\t' || c = '\n' || c = '\r' || c = '\x0b' || c = '\x0c'

/-- Python str.strip: drop leading and trailing whitespace. -/
def stripChars (cs : List Char) : List Char :=
  ((cs.dropWhile isPySpace).reverse.dropWhile isPySpace).reverse

/-- Decimal digit-string value. -/
def digitsVal (cs : List Char) : Nat :=
  cs.foldl (fun acc c => acc * 10 + (c.toNat - '0'.toNat)) 0

/-- Nonempty all-digit parse. -/
def parseDigits (cs : List Char) : Option Nat :=
  if cs ≠ [] ∧ cs.all Char.isDigit then some (digitsVal cs) else none

/-- Python int(s) on an already-stripped string: optional sign then
digits; anything else raises ValueError, modelled as none. -/
def parseInt : List Char → Option Int
  | '-' :: ds => (parseDigits ds).map fun n => -(n : Int)
  | '+' :: ds => (parseDigits ds).map fun n => (n : Int)
  | ds => (parseDigits ds).map fun n => (n : Int)

/-- Python list indexing xs[i]: negative indices count from the end;
out of range raises IndexError, modelled as none. -/
def pyIdx {α : Type} (xs : List α) (i : Int) : Option α :=
  let j : Int := if i < 0 then (xs.length : Int) + i else i
  if 0 ≤ j ∧ j < (xs.length : Int) then xs.get? j.toNat else none

/-- Python s.split(sep) with a one-character separator: full split.
The source splits with maxsplit=1 and recurses, which walks exactly
the full split, so the walker below consumes this list. -/
def splitDots : List Char → List (List Char)
  | [] => [[]]
  | c :: rest =>
      if c = '.' then [] :: splitDots rest
      else
        match splitDots rest with
        | s :: ss => (c :: s) :: ss
        | [] => [[c]]

def splitDotsStr (s : String) : List String :=
  (splitDots s.data).map fun cs => String.mk cs

/-- Failures of Container.select:
lookupErr models the ValueError raised on LookupError, which names the
missing segment and the container holding it; badIndex models the
uncaught ValueError from int() on a non-numeric segment over a list;
attrError models the AttributeError from calling select (or
get_sources) on an object that lacks it (a Value leaf or a raw slot). -/
inductive SelErr where
  | lookupErr (segment : String) (container : CtxNode) : SelErr
  | badIndex (segment : String) : SelErr
  | attrError : SelErr

/-- Container.select, walking the split path one segment at a time:
a CtxDict uses the stripped segment as a string key, a CtxList parses
it through int(); failed lookups raise naming the segment and the
container. -/
def selectSegs : CtxNode → List (List Char) → Except SelErr Entry
  | n, [] => .ok (.node n)
  | .value _ _, _ :: _ => .error .attrError
  | .cdict m kvs, seg0 :: rest =>
      let seg := String.mk (stripChars seg0)
      match lookupKV kvs seg with
      | none => .error (.lookupErr seg (.cdict m kvs))
      | some e =>
          match rest, e with
          | [], _ => .ok e
          | _ :: _, .node n2 => selectSegs n2 rest
          | _ :: _, .raw _ => .error .attrError
  | .clist m xs, seg0 :: rest =>
      let seg := stripChars seg0
      match parseInt seg with
      | none => .error (.badIndex (String.mk seg))
      | some i =>
          match pyIdx xs i with
          | none => .error (.lookupErr (toString i) (.clist m xs))
          | some n2 =>
              match rest with
              | [] => .ok (.node n2)
              | _ :: _ => selectSegs n2 rest

/-- Container.select on a dotted key string. -/
def containerSelect (n : CtxNode) (key : String) : Except SelErr Entry :=
  selectSegs n (splitDots key.data)

/-- class Context: the root CtxDict plus the transient tracking state
(_track flag and _tracked_data ledger). -/
structure Context where
  meta : Meta := ⟨none, []⟩
  data : List (String × Entry) := []
  track : Bool := false
  tracked_data : List (String × List String) := []

/-- get_sources items of a node: Value and CtxList report their own
source and path; plain Container (CtxDict inherits it) reports nothing. -/
def nodeSources : CtxNode → List (Option String × String)
  | .value _ m => [(m.source, m.path)]
  | .clist m _ => [(m.source, m.path)]
  | .cdict _ _ => []

/-- Set insertion (Python set.add) on the dedup-list model of sets. -/
def setAdd (xs : List String) (x : String) : List String :=
  if x ∈ xs then xs else xs ++ [x]

/-- defaultdict(set) update: ledger[s].update(paths), creating the
entry if absent. -/
def unionAt (td : List (String × List String)) (s : String)
    (paths : List String) : List (String × List String) :=
  dictSet td s (paths.foldl setAdd ((lookupKV td s).getD []))

/-- Context._track_data: when tracking is on, fold each get_sources
item with a truthy (non-None, nonempty) source into the ledger. -/
def trackData (ctx : Context) (n : CtxNode) : Context :=
  if ctx.track = false then ctx
  else
    { ctx with
      tracked_data :=
        (nodeSources n).foldl
          (fun td sp =>
            match sp.1 with
            | none => td
            | some s => if s = "" then td else unionAt td s [sp.2])
          ctx.tracked_data }

/-- Context.select: resolve through Container.select on the root, then
record tracking data for the resolved node.  A raw slot reached with
tracking on raises AttributeError inside _track_data (get_sources). -/
def Context.select (ctx : Context) (key : String) :
    Except SelErr (Entry × Context) :=
  match containerSelect (.cdict ctx.meta ctx.data) key with
  | .error e => .error e
  | .ok (.node n) => .ok (.node n, trackData ctx n)
  | .ok (.raw v) =>
      if ctx.track then .error .attrError else .ok (.raw v, ctx)

/-- Context.tracked: the ledger as one record per distinct source. -/
def Context.tracked (ctx : Context) : List (String × List String) :=
  ctx.tracked_data

/-- CtxDict construction from raw mapping data (meta given): update
converts every child under the parent Meta extended by its key. -/
def ctxOfData (rootMeta : Meta) (kvs : List (String × PyVal)) : Context :=
  { meta := rootMeta
    data :=
      kvs.foldl
        (fun d kv =>
          dictSet d kv.1 (.node (convertRaw (rootMeta.update_path kv.1) kv.2)))
        []
    track := false
    tracked_data := [] }

/-- Context(mapping): inline data, root Meta has source None. -/
def mkContext (kvs : List (String × PyVal)) : Context :=
  ctxOfData ⟨none, []⟩ kvs

/-- Context.load_from with the loader applied: root Meta names the
source file. -/
def Context.load_from (file : String) (kvs : List (String × PyVal)) :
    Context :=
  ctxOfData ⟨some file, []⟩ kvs

/-- Context.clone: a fresh Context built from a deep copy of the data.
Construction passes every slot back through __setitem__, so converted
nodes pass through _convert unchanged (keeping their Meta) while raw
slots get converted under the fresh root Meta; the clone starts with
track off, an empty ledger and a source-less root Meta. -/
def Context.clone (ctx : Context) : Context :=
  { meta := ⟨none, []⟩
    data :=
      ctx.data.foldl
        (fun d kv => dictSet d kv.1 (.node (convertEntry ⟨none, []⟩ kv.1 kv.2)))
        []
    track := false
    tracked_data := [] }

/-- MergeConflict: _merge raises ValueError naming the colliding key
(and the receiving mapping). -/
inductive MergeErr where
  | conflict (key : String) : MergeErr
deriving DecidableEq

/-- _merge between two plain dicts (both sides raw): recurse where both
values are mappings, otherwise conflict-check and assign raw. -/
def mergeRaw (ow : Bool) :
    List (String × PyVal) → List (String × PyVal) →
      Except MergeErr (List (String × PyVal))
  | into, [] => .ok into
  | into, (k, v) :: rest =>
      match lookupKV into k, v with
      | some (.pydict d), .pydict u =>
          match mergeRaw ow d u with
          | .error e => .error e
          | .ok d2 => mergeRaw ow (dictSet into k (.pydict d2)) rest
      | some _, v2 =>
          if ow = false then .error (.conflict k)
          else mergeRaw ow (dictSet into k v2) rest
      | none, v2 => mergeRaw ow (dictSet into k v2) rest

/-- _merge where the receiver is a CtxDict object (the recursive case of
_merge under merge_update): membership and assignment go through the
CtxDict protocol, so assigned values are converted with the dict Meta
extended by the key. -/
def mergeCtx (ow : Bool) (m : Meta) :
    List (String × Entry) → List (String × PyVal) →
      Except MergeErr (List (String × Entry))
  | kvs, [] => .ok kvs
  | kvs, (k, v) :: rest =>
      match lookupKV kvs k, v with
      | some (.node (.cdict m2 kvs2)), .pydict u =>
          match mergeCtx ow m2 kvs2 u with
          | .error e => .error e
          | .ok kvs2' => mergeCtx ow m (dictSet kvs k (.node (.cdict m2 kvs2'))) rest
      | some (.raw (.pydict d)), .pydict u =>
          match mergeRaw ow d u with
          | .error e => .error e
          | .ok d2 => mergeCtx ow m (dictSet kvs k (.raw (.pydict d2))) rest
      | some _, v2 =>
          if ow = false then .error (.conflict k)
          else mergeCtx ow m (dictSet kvs k (.node (convertRaw (m.update_path k) v2))) rest
      | none, v2 =>
          mergeCtx ow m (dictSet kvs k (.node (convertRaw (m.update_path k) v2))) rest

/-- CtxDict.merge_update calls _merge(self.data, update, overwrite): the
receiver at the TOP level is the plain backing dict self.data, so
top-level assignments bypass __setitem__ and store the incoming value
raw (unconverted, no Meta); only the recursive calls on nested CtxDict
children convert. -/
def mergeTop (ow : Bool) :
    List (String × Entry) → List (String × PyVal) →
      Except MergeErr (List (String × Entry))
  | into, [] => .ok into
  | into, (k, v) :: rest =>
      match lookupKV into k, v with
      | some (.node (.cdict m2 kvs2)), .pydict u =>
          match mergeCtx ow m2 kvs2 u with
          | .error e => .error e
          | .ok kvs2' => mergeTop ow (dictSet into k (.node (.cdict m2 kvs2'))) rest
      | some (.raw (.pydict d)), .pydict u =>
          match mergeRaw ow d u with
          | .error e => .error e
          | .ok d2 => mergeTop ow (dictSet into k (.raw (.pydict d2))) rest
      | some _, v2 =>
          if ow = false then .error (.conflict k)
          else mergeTop ow (dictSet into k (.raw v2)) rest
      | none, v2 => mergeTop ow (dictSet into k (.raw v2)) rest

/-- Context.merge_update (overwrite defaults to true in the source). -/
def Context.merge_update (ctx : Context) (update : List (String × PyVal))
    (ow : Bool) : Except MergeErr Context :=
  match mergeTop ow ctx.data update with
  | .error e => .error e
  | .ok d => .ok { ctx with data := d }

mutual
/-- The provenance-path invariant of the spec: a node carries the
expected Meta and every child extends it by exactly its own key or
index; a raw (unconverted) slot has no Meta and falsifies it. -/
def nodeInvB (expected : Meta) : CtxNode → Bool
  | .value _ m => m == expected
  | .clist m xs => m == expected && listInvB m 0 xs
  | .cdict m kvs => m == expected && dictInvB m kvs

def listInvB (m : Meta) (i : Nat) : List CtxNode → Bool
  | [] => true
  | x :: xs => nodeInvB (m.update_path (toString i)) x && listInvB m (i + 1) xs

def dictInvB (m : Meta) : List (String × Entry) → Bool
  | [] => true
  | (k, e) :: kvs =>
      (match e with
       | .node n => nodeInvB (m.update_path k) n
       | .raw _ => false) &&
        dictInvB m kvs
end

/-- The invariant over a whole Context tree. -/
def rootInvB (ctx : Context) : Bool :=
  dictInvB ctx.meta ctx.data

/-! ParamsDependency (dvc/dependency/param.py).  The file system and the
loader are collapsed into a FileState: the params file is absent, is a
directory, fails to parse, or loads to a raw value. -/

inductive FileState where
  | missing : FileState
  | isdir : FileState
  | parseFail : FileState
  | loaded (v : PyVal) : FileState

/-- The exception classes of param.py.  MissingParamsError carries the
set of missing names the message joins together. -/
inductive DepErr where
  | missingParamsFile : DepErr
  | paramsIsADirectory : DepErr
  | badParamFile : DepErr
  | missingParams (names : List String) : DepErr
deriving DecidableEq

/-- ParamsDependency.read_file: validate_filepath turns a missing path
into MissingParamsFile and a directory into ParamsIsADirectoryError; a
loader ParseError becomes BadParamFileError. -/
def read_file : FileState → Except DepErr PyVal
  | .missing => .error .missingParamsFile
  | .isdir => .error .paramsIsADirectory
  | .parseFail => .error .badParamFile
  | .loaded v => .ok v

/-- ParamsDependency._read: like read_file but a MissingParamsFile is
swallowed and the file is treated as an empty mapping. -/
def paramsRead (fs : FileState) : Except DepErr PyVal :=
  match read_file fs with
  | .error .missingParamsFile => .ok (.pydict [])
  | r => r

/-- dpath.util.get over raw loaded data with separator dot: dict
segments are string keys, list segments parse through int(); no match
raises KeyError, modelled as none.  (Glob metacharacters in names are
out of scope.) -/
def dpathGet : PyVal → List String → Option PyVal
  | v, [] => some v
  | .pydict kvs, seg :: rest =>
      match lookupKV kvs seg with
      | some v => dpathGet v rest
      | none => none
  | .pylist xs, seg :: rest =>
      match parseInt seg.data with
      | some i =>
          match pyIdx xs i with
          | some v => dpathGet v rest
          | none => none
      | none => none
  | _, _ :: _ => none

/-- The loop body of read_params: each requested dotted name found in
the loaded structure is recorded; a KeyError is passed over silently. -/
def readParamsList (cfg : PyVal) (params : List String) :
    List (String × PyVal) :=
  params.foldl
    (fun ret p =>
      match dpathGet cfg (splitDotsStr p) with
      | some v => dictSet ret p v
      | none => ret)
    []

/-- ParamsDependency.read_params. -/
def read_params (fs : FileState) (params : List String) :
    Except DepErr (List (String × PyVal)) :=
  match paramsRead fs with
  | .error e => .error e
  | .ok cfg => .ok (readParamsList cfg params)

/-- set(params) - set(info.keys()), as an insertion-ordered
duplicate-free list. -/
def missingOf (params : List String) (info : List (String × PyVal)) :
    List String :=
  (params.filter fun p => (lookupKV info p).isNone).dedup

/-- ParamsDependency.get_hash: read_params, then every requested name
absent from the result is fatal, raising one MissingParamsError that
carries all the missing names; otherwise the ordered name-to-value map
is the hash payload (HashInfo value). -/
def get_hash (fs : FileState) (params : List String) :
    Except DepErr (List (String × PyVal)) :=
  match read_params fs params with
  | .error e => .error e
  | .ok info =>
      let missing := missingOf params info
      if missing.isEmpty then .ok info else .error (.missingParams missing)

/-- The if/elif chain of workspace_status for one requested name:
not on disk: deleted; else not in the baseline: new; else unequal
parsed values: modified; equal: no entry. -/
def classify (actual info : List (String × PyVal)) (param : String) :
    Option String :=
  match lookupKV actual param, lookupKV info param with
  | none, _ => some "deleted"
  | some _, none => some "new"
  | some a, some i => if pyEq a i then none else some "modified"

/-- ParamsDependency.workspace_status, per-parameter part (lines 80-96):
the baseline map is hash_info.value (empty when no baseline), the live
values come from read_params, and the report maps each requested name to
its classification.  (The early return when the base-class status
already reports the whole file deleted lives in the base Dependency
class, outside this repository slice, and is not modelled.)  The source
keys the report under str(self); the inner per-parameter mapping is
returned here. -/
def workspace_status (params : List String)
    (info : List (String × PyVal)) (fs : FileState) :
    Except DepErr (List (String × String)) :=
  match read_params fs params with
  | .error e => .error e
  | .ok actual =>
      .ok (params.foldl
        (fun st p =>
          match classify actual info p with
          | some s => dictSet st p s
          | none => st)
        [])

/-! class String of context.py: an interpolated string carrying the
provenance (source, path set) of the values spliced into it. -/

/-- The interpolation wrapper: the built string and its provenance map
(defaultdict(set), modelled as an assoc list of dedup lists). -/
structure StrNode where
  value : String
  meta : List (String × List String)

/-- What _resolve_value hands to _add_source: a Value leaf, another
interpolated String, a container node, or a raw slot value. -/
inductive Resolved where
  | rvalue (v : PyVal) (m : Meta) : Resolved
  | rstring (s : StrNode) : Resolved
  | rnode (n : CtxNode) : Resolved
  | rraw (v : PyVal) : Resolved

/-- String._add_source, translated as written: a Value with a truthy
source adds its path under that source; for a String value with a
nonempty provenance map the loop iterates over SELF.meta.items() and
updates each of its own entries with its own key set (the value's map
is never read), so the branch leaves the map unchanged. -/
def addSource (selfMeta : List (String × List String)) :
    Resolved → List (String × List String)
  | .rvalue _ m =>
      match m.source with
      | some s => if s = "" then selfMeta else unionAt selfMeta s [m.path]
      | none => selfMeta
  | .rstring sn =>
      if sn.meta.isEmpty then selfMeta
      else selfMeta.foldl (fun acc p => unionAt acc p.1 p.2) selfMeta
  | .rnode _ => selfMeta
  | .rraw _ => selfMeta

/-- str() of a scalar value, as Python renders it. -/
def pyStr : PyVal → String
  | .pynone => "None"
  | .pybool true => "True"
  | .pybool false => "False"
  | .pyint n => toString n
  | .pyfloat q => toString q
  | .pystr s => s
  | .pylist _ => ""
  | .pydict _ => ""

mutual
/-- Natural string form of nested raw data, used when a container value
is spliced into a template (spec 4.2); scalars render via str(). -/
def pyRender : PyVal → String
  | .pylist xs => "[" ++ pyRenderList xs ++ "]"
  | .pydict kvs => "\x7b" ++ pyRenderDict kvs ++ "\x7d"
  | v => pyStr v

def pyRenderList : List PyVal → String
  | [] => ""
  | [x] => pyRender x
  | x :: xs => pyRender x ++ ", " ++ pyRenderList xs

def pyRenderDict : List (String × PyVal) → String
  | [] => ""
  | [(k, v)] => k ++ ": " ++ pyRender v
  | (k, v) :: kvs => k ++ ": " ++ pyRender v ++ ", " ++ pyRenderDict kvs
end

mutual
/-- Forget provenance: the raw data under a node. -/
def nodeToVal : CtxNode → PyVal
  | .value v _ => v
  | .clist _ xs => .pylist (nodesToVal xs)
  | .cdict _ kvs => .pydict (entriesToVal kvs)

def nodesToVal : List CtxNode → List PyVal
  | [] => []
  | x :: xs => nodeToVal x :: nodesToVal xs

def entriesToVal : List (String × Entry) → List (String × PyVal)
  | [] => []
  | (k, .node n) :: kvs => (k, nodeToVal n) :: entriesToVal kvs
  | (k, .raw v) :: kvs => (k, v) :: entriesToVal kvs
end

/-- str(val) for a resolved value spliced into a template. -/
def resolvedStr : Resolved → String
  | .rvalue v _ => pyStr v
  | .rstring s => s.value
  | .rnode n => pyRender (nodeToVal n)
  | .rraw v => pyRender v

/-- String.__init__ with resolution already performed: fold the
interleaved literal runs and resolved match values left to right,
recording provenance through _add_source for every match.  (The
resolution of each match, _resolve_value, lives in the interpolate
module, which is not part of this repository slice.) -/
def strInit (parts : List (String ⊕ Resolved)) : StrNode :=
  parts.foldl
    (fun sn part =>
      match part with
      | .inl lit => { sn with value := sn.value ++ lit }
      | .inr r =>
          { value := sn.value ++ resolvedStr r, meta := addSource sn.meta r })
    { value := "", meta := [] }

/-! Interpolator.  Modelled from the spec: the interpolate module
(dvc/parsing/interpolate.py) and the format entry point on Context are
not under src (only context.py and the unit tests are), so the scanner
and the placeholder substitution below follow section 4.2 of the spec:
placeholders are the dollar-brace and dollar-double-brace forms with
surrounding whitespace trimmed; a backslash-escaped placeholder is not
evaluated, the backslash being consumed and the rest emitted literally;
a template that is exactly one placeholder returns the resolved native
value with its type preserved; otherwise resolved values are
stringified and spliced. -/

/-- A scanned template fragment: a literal character or a placeholder
expression. -/
inductive Frag where
  | lit (c : Char) : Frag
  | ph (expr : List Char) : Frag

def trimC (cs : List Char) : List Char := stripChars cs

mutual
/-- Modelled from the spec: left-to-right placeholder scan. -/
def scanAux : List Char → List Frag
  | [] => []
  | '\\' :: '$' :: '{' :: rest => .lit '$' :: .lit '{' :: scanAux rest
  | '$' :: '{' :: '{' :: rest => scanPh2 [] rest
  | '$' :: '{' :: c :: rest => scanPh1 [c] rest
  | '$' :: '{' :: [] => [.lit '$', .lit '{']
  | c :: rest => .lit c :: scanAux rest

/-- Inside a single-brace placeholder, up to the closing brace; an
unclosed opener is literal text. -/
def scanPh1 (acc : List Char) : List Char → List Frag
  | [] => .lit '$' :: .lit '{' :: acc.map .lit
  | '}' :: rest => .ph (trimC acc) :: scanAux rest
  | c :: rest => scanPh1 (acc ++ [c]) rest

/-- Inside a double-brace placeholder, up to the closing double brace. -/
def scanPh2 (acc : List Char) : List Char → List Frag
  | [] => .lit '$' :: .lit '{' :: .lit '{' :: acc.map .lit
  | '}' :: '}' :: rest => .ph (trimC acc) :: scanAux rest
  | c :: rest => scanPh2 (acc ++ [c]) rest
end

/-- Is the scanned template exactly one placeholder spanning the whole
string? -/
def onlyPh : List Frag → Option (List Char)
  | [.ph e] => some e
  | _ => none

/-- View a selected slot as what _resolve_value hands onward: a Value
leaf, a container node, or a raw slot value. -/
def entryResolved : Entry → Resolved
  | .node (.value v m) => .rvalue v m
  | .node n => .rnode n
  | .raw v => .rraw v

/-- What format returns: the native value of a full-span placeholder
(type preserved), a spliced interpolated string, or the container node
of a full-span placeholder. -/
inductive FormatOut where
  | out (v : PyVal) : FormatOut
  | outStr (s : StrNode) : FormatOut
  | outNode (n : CtxNode) : FormatOut
  | outRaw (v : PyVal) : FormatOut

/-- Modelled from the spec: the splice loop.  Each placeholder resolves
through Context.select (tracking on), its provenance folds in through
_add_source, and its str() form is appended. -/
def spliceGo (ctx : Context) (sn : StrNode) :
    List Frag → Except SelErr (StrNode × Context)
  | [] => .ok (sn, ctx)
  | .lit c :: rest => spliceGo ctx { sn with value := sn.value.push c } rest
  | .ph e :: rest =>
      match ctx.select (String.mk e) with
      | .error err => .error err
      | .ok (ent, c2) =>
          spliceGo c2
            { value := sn.value ++ resolvedStr (entryResolved ent)
              meta := addSource sn.meta (entryResolved ent) }
            rest

/-- Modelled from the spec: Context.format.  A template that is exactly
one placeholder returns the resolved native value with its type
preserved; otherwise every resolved value is stringified and spliced
into the literal text.  Resolution happens with tracking enabled; the
track flag is restored afterwards. -/
def Context.format (ctx : Context) (template : String) :
    Except SelErr (FormatOut × Context) :=
  let tctx : Context := { ctx with track := true }
  let frags := scanAux template.data
  match onlyPh frags with
  | some e =>
      match tctx.select (String.mk e) with
      | .error err => .error err
      | .ok (ent, c2) =>
          let c3 : Context := { c2 with track := ctx.track }
          match ent with
          | .node (.value v _) => .ok (.out v, c3)
          | .node n => .ok (.outNode n, c3)
          | .raw v => .ok (.outRaw v, c3)
  | none =>
      match spliceGo tctx { value := "", meta := [] } frags with
      | .error err => .error err
      | .ok (sn, c2) => .ok (.outStr sn, { c2 with track := ctx.track })

/-- Is the value a mapping (isinstance(val, Mapping))? -/
def PyVal.isDict : PyVal → Bool
  | .pydict _ => true
  | _ => false

/-- Does a dict slot hold a Mapping (a CtxDict node or a raw dict)?
CtxList is a MutableSequence, not a Mapping, and a Value is neither. -/
def entryIsMapping : Entry → Bool
  | .node (.cdict _ _) => true
  | .raw (.pydict _) => true
  | _ => false

/-- Does a dict slot hold a converted node (rather than a raw value)? -/
def entryIsNode : Entry → Bool
  | .node _ => true
  | .raw _ => false

/-- The nested-lookup fixture of the spec and tests. -/
def demoTree : CtxNode :=
  convertRaw ⟨none, []⟩
    (.pydict [("dict", .pydict [("nested", .pydict [("string", .pystr "bar")])])])

/-- The list-indexing fixture of the spec and tests. -/
def demoListTree : CtxNode :=
  convertRaw ⟨none, []⟩
    (.pydict [("dict", .pylist [.pydict [("f", .pystr "f")]])])

/-- A file-loaded context with tracking enabled: a map child, and a
scalar child, both carrying the file source in their Meta. -/
def demoTrackCtx : Context :=
  { Context.load_from "params.yaml"
      [("d", .pydict [("x", .pyint 1)]), ("v", .pyint 7)] with
    track := true }

/-- A file-loaded context carrying tracking state, used to exhibit what
clone resets. -/
def demoCloneCtx : Context :=
  { meta := ⟨some "params.yaml", []⟩
    data := [("a", .node (.value (.pyint 1) ⟨some "params.yaml", ["a"]⟩))]
    track := true
    tracked_data := [("params.yaml", ["a"])] }

/-! Basic lemmas about the association-list dict model. -/

theorem lookupKV_dictSet {α : Type} (kvs : List (String × α)) (k p : String)
    (v : α) :
    lookupKV (dictSet kvs k v) p = if k = p then some v else lookupKV kvs p := by
  induction kvs with
  | nil => by_cases h : k = p <;> simp [dictSet, lookupKV, h]
  | cons hd tl ih =>
      obtain ⟨k1, w⟩ := hd
      by_cases h1 : k1 = k
      · subst h1
        by_cases h2 : k1 = p <;> simp [dictSet, lookupKV, h2]
      · by_cases h2 : k1 = p
        · subst h2
          have h3 : ¬(k = k1) := fun h => h1 h.symm
          simp [dictSet, lookupKV, h1, h3]
        · simp [dictSet, lookupKV, h1, h2, ih]

theorem lookupKV_eq_none {α : Type} (kvs : List (String × α)) (k : String) :
    lookupKV kvs k = none ↔ k ∉ kvs.map Prod.fst := by
  induction kvs with
  | nil => simp [lookupKV]
  | cons hd tl ih =>
      obtain ⟨k1, w⟩ := hd
      by_cases h : k1 = k
      · subst h
        simp [lookupKV]
      · have h' : ¬(k = k1) := fun hh => h hh.symm
        simp [lookupKV, h, ih, h']

theorem dictSet_map_fst {α : Type} (kvs : List (String × α)) (k : String)
    (v : α) :
    (dictSet kvs k v).map Prod.fst =
      if (lookupKV kvs k).isSome then kvs.map Prod.fst
      else kvs.map Prod.fst ++ [k] := by
  induction kvs with
  | nil => simp [dictSet, lookupKV]
  | cons hd tl ih =>
      obtain ⟨k1, w⟩ := hd
      by_cases h : k1 = k
      · simp [dictSet, lookupKV, h]
      · by_cases h2 : (lookupKV tl k).isSome <;>
          simp [dictSet, lookupKV, h, ih, h2]

theorem nodup_dictSet {α : Type} (kvs : List (String × α)) (k : String)
    (v : α) (h : (kvs.map Prod.fst).Nodup) :
    ((dictSet kvs k v).map Prod.fst).Nodup := by
  rw [dictSet_map_fst]
  by_cases h2 : (lookupKV kvs k).isSome
  · simpa [h2] using h
  · have hnone : lookupKV kvs k = none := by
      cases hx : lookupKV kvs k
      · rfl
      · simp [hx] at h2
    have hk : k ∉ kvs.map Prod.fst := (lookupKV_eq_none kvs k).mp hnone
    simp [h2, List.nodup_append, h, hk]

theorem dictSet_eq_append {α : Type} (kvs : List (String × α)) (k : String)
    (v : α) (h : lookupKV kvs k = none) :
    dictSet kvs k v = kvs ++ [(k, v)] := by
  induction kvs with
  | nil => rfl
  | cons hd tl ih =>
      obtain ⟨k1, w⟩ := hd
      by_cases h1 : k1 = k
      · simp [lookupKV, h1] at h
      · simp [lookupKV, h1] at h
        simp [dictSet, h1, ih h]

theorem lookupKV_append {α : Type} (xs ys : List (String × α)) (k : String) :
    lookupKV (xs ++ ys) k =
      match lookupKV xs k with
      | some v => some v
      | none => lookupKV ys k := by
  induction xs with
  | nil => simp [lookupKV]
  | cons hd tl ih =>
      obtain ⟨k1, w⟩ := hd
      by_cases h : k1 = k <;> simp [lookupKV, h, ih]

/-! Lemmas about the two report-building folds of param.py. -/

theorem statusFold_lookup (actual info : List (String × PyVal))
    (params : List String) (st0 : List (String × String)) (p : String) :
    lookupKV
      (params.foldl
        (fun st q =>
          match classify actual info q with
          | some s => dictSet st q s
          | none => st)
        st0) p =
      if p ∈ params ∧ (classify actual info p).isSome then
        classify actual info p
      else lookupKV st0 p := by
  induction params generalizing st0 with
  | nil => simp
  | cons q params ih =>
      rw [List.foldl_cons, ih]
      by_cases hpq : p = q
      · subst hpq
        cases hc : classify actual info p with
        | none => simp [hc]
        | some s =>
            by_cases hm : p ∈ params <;> simp [hc, hm, lookupKV_dictSet]
      · have hqp : ¬(q = p) := fun h => hpq h.symm
        cases hc : classify actual info q with
        | none => simp [hc, hpq]
        | some s => simp [hc, lookupKV_dictSet, hqp, hpq]

theorem readParamsList_lookup (cfg : PyVal) (params : List String)
    (p : String) :
    lookupKV (readParamsList cfg params) p =
      if p ∈ params then dpathGet cfg (splitDotsStr p) else none := by
  have gen : ∀ (ps : List String) (st0 : List (String × PyVal)),
      lookupKV
        (ps.foldl
          (fun ret q =>
            match dpathGet cfg (splitDotsStr q) with
            | some v => dictSet ret q v
            | none => ret)
          st0) p =
      if p ∈ ps ∧ (dpathGet cfg (splitDotsStr p)).isSome then
        dpathGet cfg (splitDotsStr p)
      else lookupKV st0 p := by
    intro ps
    induction ps with
    | nil => intro st0; simp
    | cons q qs ih =>
        intro st0
        rw [List.foldl_cons, ih]
        by_cases hpq : p = q
        · subst hpq
          cases hd : dpathGet cfg (splitDotsStr p) with
          | none => simp [hd]
          | some v =>
              by_cases hm : p ∈ qs <;> simp [hd, hm, lookupKV_dictSet]
        · have hqp : ¬(q = p) := fun h => hpq h.symm
          cases hd : dpathGet cfg (splitDotsStr q) with
          | none => simp [hd, hpq]
          | some v => simp [hd, lookupKV_dictSet, hqp, hpq]
  rw [show readParamsList cfg params =
        params.foldl
          (fun ret q =>
            match dpathGet cfg (splitDotsStr q) with
            | some v => dictSet ret q v
            | none => ret)
          [] from rfl,
      gen]
  by_cases hm : p ∈ params
  · cases hd : dpathGet cfg (splitDotsStr p) <;> simp [hm, hd, lookupKV]
  · simp [hm, lookupKV]

theorem mem_missingOf (params : List String) (info : List (String × PyVal))
    (n : String) :
    n ∈ missingOf params info ↔ n ∈ params ∧ lookupKV info n = none := by
  simp [missingOf, List.mem_dedup, List.mem_filter,
    Option.isNone_iff_eq_none]

/-- C1: workspace_status classifies every requested parameter against
the baseline map and the live on-disk values: present in the baseline
and absent on disk gives deleted; absent from the baseline and present
on disk gives new; present in both with structurally unequal parsed
values gives modified; structurally equal values leave the name out of
the report entirely. -/
theorem c1_workspace_status_classifies
    (params : List String) (cfg : PyVal) (info : List (String × PyVal))
    (st : List (String × String)) (param : String)
    (hp : param ∈ params)
    (hst : workspace_status params info (.loaded cfg) = .ok st) :
    (lookupKV info param ≠ none ∧
        lookupKV (readParamsList cfg params) param = none →
      lookupKV st param = some "deleted") ∧
    (lookupKV info param = none ∧
        lookupKV (readParamsList cfg params) param ≠ none →
      lookupKV st param = some "new") ∧
    (∀ a i, lookupKV (readParamsList cfg params) param = some a →
      lookupKV info param = some i → pyEq a i = false →
      lookupKV st param = some "modified") ∧
    (∀ a i, lookupKV (readParamsList cfg params) param = some a →
      lookupKV info param = some i → pyEq a i = true →
      lookupKV st param = none) := by
  have h0 : workspace_status params info (.loaded cfg) =
      Except.ok
        (params.foldl
          (fun s q =>
            match classify (readParamsList cfg params) info q with
            | some x => dictSet s q x
            | none => s)
          []) := rfl
  rw [h0] at hst
  have hst2 := (Except.ok.inj hst).symm
  subst hst2
  refine ⟨?_, ?_, ?_, ?_⟩
  · rintro ⟨h1, h2⟩
    have hc : classify (readParamsList cfg params) info param =
        some "deleted" := by
      simp [classify, h2]
    rw [statusFold_lookup]
    simp [hp, hc]
  · rintro ⟨h1, h2⟩
    obtain ⟨a, ha⟩ := Option.ne_none_iff_exists'.mp h2
    have hc : classify (readParamsList cfg params) info param =
        some "new" := by
      simp [classify, h1, ha]
    rw [statusFold_lookup]
    simp [hp, hc]
  · intro a i ha hi hne
    have hc : classify (readParamsList cfg params) info param =
        some "modified" := by
      simp [classify, ha, hi, hne]
    rw [statusFold_lookup]
    simp [hp, hc]
  · intro a i ha hi heq
    have hc : classify (readParamsList cfg params) info param = none := by
      simp [classify, ha, hi, heq]
    rw [statusFold_lookup]
    simp [hp, hc, lookupKV]

/-- C1 witness: the spec scenario, baseline lr 0.1 and epochs 3, disk
file epochs 5: lr is reported deleted and epochs modified. -/
theorem c1_workspace_status_classifies_witness :
    workspace_status ["lr", "epochs"]
        [("lr", .pyfloat ((1 : Rat) / 10)), ("epochs", .pyint 3)]
        (.loaded (.pydict [("epochs", .pyint 5)])) =
      .ok [("lr", "deleted"), ("epochs", "modified")] ∧
    lookupKV [("lr", "deleted"), ("epochs", "modified")] "lr" =
      some "deleted" ∧
    lookupKV [("lr", "deleted"), ("epochs", "modified")] "epochs" =
      some "modified" := by
  have h1 := c1_workspace_status_classifies ["lr", "epochs"]
      (.pydict [("epochs", .pyint 5)])
      [("lr", .pyfloat ((1 : Rat) / 10)), ("epochs", .pyint 3)]
      [("lr", "deleted"), ("epochs", "modified")] "lr" (by simp) rfl
  have h2 := c1_workspace_status_classifies ["lr", "epochs"]
      (.pydict [("epochs", .pyint 5)])
      [("lr", .pyfloat ((1 : Rat) / 10)), ("epochs", .pyint 3)]
      [("lr", "deleted"), ("epochs", "modified")] "epochs" (by simp) rfl
  exact ⟨rfl, h1.1 ⟨by simp [lookupKV], rfl⟩,
    h2.2.2.1 (.pyint 5) (.pyint 3) rfl rfl rfl⟩

/-- C4: for requested names absent from the loaded file, read_params
silently omits each of them and succeeds, while get_hash fails with one
MissingParamsError carrying exactly the set of all missing names. -/
theorem c4_read_params_silent_get_hash_fatal
    (params : List String) (cfg : PyVal) (name : String)
    (hmem : name ∈ params)
    (habs : dpathGet cfg (splitDotsStr name) = none) :
    read_params (.loaded cfg) params = .ok (readParamsList cfg params) ∧
    lookupKV (readParamsList cfg params) name = none ∧
    get_hash (.loaded cfg) params =
      .error (.missingParams (missingOf params (readParamsList cfg params))) ∧
    name ∈ missingOf params (readParamsList cfg params) ∧
    (∀ n, n ∈ missingOf params (readParamsList cfg params) ↔
      n ∈ params ∧ dpathGet cfg (splitDotsStr n) = none) := by
  have hlook : lookupKV (readParamsList cfg params) name = none := by
    rw [readParamsList_lookup]
    simp [hmem, habs]
  have hmem2 : name ∈ missingOf params (readParamsList cfg params) :=
    (mem_missingOf _ _ _).mpr ⟨hmem, hlook⟩
  have hne : (missingOf params (readParamsList cfg params)).isEmpty = false := by
    rcases hml : missingOf params (readParamsList cfg params) with _ | ⟨a, l⟩
    · rw [hml] at hmem2
      simp at hmem2
    · simp
  refine ⟨rfl, hlook, ?_, hmem2, ?_⟩
  · have hg : get_hash (.loaded cfg) params =
        if (missingOf params (readParamsList cfg params)).isEmpty then
          Except.ok (readParamsList cfg params)
        else
          Except.error
            (.missingParams (missingOf params (readParamsList cfg params))) :=
      rfl
    rw [hg, hne]
    simp
  · intro n
    rw [mem_missingOf, readParamsList_lookup]
    by_cases hn : n ∈ params <;> simp [hn]

/-- C4 witness: requested lr and epochs against a file holding only
epochs: read_params returns just epochs with no error, and get_hash
raises MissingParamsError listing lr. -/
theorem c4_read_params_silent_get_hash_fatal_witness :
    read_params (.loaded (.pydict [("epochs", .pyint 3)])) ["lr", "epochs"] =
      .ok [("epochs", .pyint 3)] ∧
    get_hash (.loaded (.pydict [("epochs", .pyint 3)])) ["lr", "epochs"] =
      .error (.missingParams ["lr"]) ∧
    dpathGet (.pydict [("epochs", .pyint 3)]) (splitDotsStr "lr") = none := by
  have h := c4_read_params_silent_get_hash_fatal ["lr", "epochs"]
      (.pydict [("epochs", .pyint 3)]) "lr" (by simp) rfl
  exact ⟨h.1, h.2.2.1, rfl⟩

theorem splitDots_ne_nil (cs : List Char) : splitDots cs ≠ [] := by
  induction cs with
  | nil => simp [splitDots]
  | cons c rest ih =>
      by_cases h : c = '.'
      · simp [splitDots, h]
      · simp only [splitDots, h, if_false]
        rcases hx : splitDots rest with _ | ⟨s, ss⟩
        · exact absurd hx ih
        · simp

theorem dpathGet_empty_dict (p : String) :
    dpathGet (.pydict []) (splitDotsStr p) = none := by
  unfold splitDotsStr
  rcases h : splitDots p.data with _ | ⟨s, ss⟩
  · exact absurd h (splitDots_ne_nil _)
  · simp [dpathGet, lookupKV]

/-- C5 counterexample: with the params file absent, the read path
treats it as empty, and get_hash with no requested names SUCCEEDS with
an empty hash payload: the absence of the file is not itself fatal at
hash time (MissingParamsFile is swallowed by _read inside read_params
before get_hash ever sees it). -/
theorem c5_get_hash_missing_file_counterexample :
    paramsRead .missing = .ok (.pydict []) ∧
    read_params .missing [] = .ok [] ∧
    get_hash .missing [] = .ok [] :=
  ⟨rfl, rfl, rfl⟩

/-- C5 amended: the status/read paths treat an absent params file as an
empty structure; get_hash also catches MissingParamsFile through the
same _read, and then fails with MissingParamsError listing every
requested name whenever at least one parameter is requested; with no
requested names it succeeds. -/
theorem c5_get_hash_missing_file_amended (params : List String)
    (h : params ≠ []) :
    paramsRead .missing = .ok (.pydict []) ∧
    read_params .missing params = .ok (readParamsList (.pydict []) params) ∧
    (∀ n, lookupKV (readParamsList (.pydict []) params) n = none) ∧
    get_hash .missing params = .error (.missingParams params.dedup) := by
  have hlook : ∀ n, lookupKV (readParamsList (.pydict []) params) n = none := by
    intro n
    rw [readParamsList_lookup]
    by_cases hn : n ∈ params <;> simp [hn, dpathGet_empty_dict]
  have hmiss : missingOf params (readParamsList (.pydict []) params) =
      params.dedup := by
    unfold missingOf
    congr 1
    apply List.filter_eq_self.mpr
    intro a _
    simp [hlook a]
  have hne : params.dedup ≠ [] := by
    simpa [List.dedup_eq_nil] using h
  refine ⟨rfl, rfl, hlook, ?_⟩
  have hg : get_hash .missing params =
      if (missingOf params (readParamsList (.pydict []) params)).isEmpty then
        Except.ok (readParamsList (.pydict []) params)
      else
        Except.error
          (.missingParams (missingOf params (readParamsList (.pydict []) params))) :=
    rfl
  rw [hg, hmiss]
  have hie : params.dedup.isEmpty = false := by
    rcases hd : params.dedup with _ | ⟨a, l⟩
    · exact absurd hd hne
    · simp
  rw [hie]
  simp

/-- C5 amended witness: one requested name, absent file. -/
theorem c5_get_hash_missing_file_amended_witness :
    (["lr"] ≠ ([] : List String)) ∧
    get_hash .missing ["lr"] = .error (.missingParams ["lr"]) := by
  have h := c5_get_hash_missing_file_amended ["lr"] (by simp)
  have h2 : (["lr"] : List String).dedup = ["lr"] := by simp
  exact ⟨by simp, h2 ▸ h.2.2.2⟩

/-! Single-key stepping lemmas for merge_update. -/

theorem mergeTop_single_cdict (into : List (String × Entry)) (k : String)
    (u : List (String × PyVal)) (ow : Bool) (m2 : Meta)
    (kvs2 : List (String × Entry))
    (hlook : lookupKV into k = some (.node (.cdict m2 kvs2))) :
    mergeTop ow into [(k, .pydict u)] =
      match mergeCtx ow m2 kvs2 u with
      | .error e => .error e
      | .ok kvs2' => .ok (dictSet into k (.node (.cdict m2 kvs2'))) := by
  cases hmc : mergeCtx ow m2 kvs2 u <;> simp [mergeTop, hlook, hmc]

theorem mergeTop_single_rawdict (into : List (String × Entry)) (k : String)
    (u : List (String × PyVal)) (ow : Bool) (d : List (String × PyVal))
    (hlook : lookupKV into k = some (.raw (.pydict d))) :
    mergeTop ow into [(k, .pydict u)] =
      match mergeRaw ow d u with
      | .error e => .error e
      | .ok d2 => .ok (dictSet into k (.raw (.pydict d2))) := by
  cases hmr : mergeRaw ow d u <;> simp [mergeTop, hlook, hmr]

theorem mergeTop_single_other (into : List (String × Entry)) (k : String)
    (v : PyVal) (ow : Bool) (e : Entry)
    (hlook : lookupKV into k = some e)
    (hnm : (entryIsMapping e && v.isDict) = false) :
    mergeTop ow into [(k, v)] =
      if ow = false then .error (.conflict k)
      else .ok (dictSet into k (.raw v)) := by
  rcases e with n | rv
  · rcases n with ⟨vv, mm⟩ | ⟨mm, xs⟩ | ⟨mm, kvs⟩
    · cases v <;> simp [mergeTop, hlook]
    · cases v <;> simp [mergeTop, hlook]
    · cases v <;> simp [entryIsMapping, PyVal.isDict] at hnm <;>
        simp [mergeTop, hlook]
  · rcases rv with _ | b | n | q | s | xs | kvs
    · cases v <;> simp [mergeTop, hlook]
    · cases v <;> simp [mergeTop, hlook]
    · cases v <;> simp [mergeTop, hlook]
    · cases v <;> simp [mergeTop, hlook]
    · cases v <;> simp [mergeTop, hlook]
    · cases v <;> simp [mergeTop, hlook]
    · cases v <;> simp [entryIsMapping, PyVal.isDict] at hnm <;>
        simp [mergeTop, hlook]

/-- C6: merge_update with a one-binding update: where both the
receiving slot and the incoming value are nested maps the merge
recurses (through converting assignments on a CtxDict receiver, plain
ones on a raw dict receiver); at any other existing key it raises
MergeConflict naming that key when overwrite is off, and replaces the
stored value with the incoming one when overwrite is on. -/
theorem c6_merge_update_key_semantics
    (ctx : Context) (k : String) (v : PyVal) (ow : Bool) :
    (∀ m2 kvs2 u, lookupKV ctx.data k = some (.node (.cdict m2 kvs2)) →
      v = .pydict u →
      ctx.merge_update [(k, v)] ow =
        match mergeCtx ow m2 kvs2 u with
        | .error e => .error e
        | .ok kvs2' =>
            .ok { ctx with data := dictSet ctx.data k (.node (.cdict m2 kvs2')) }) ∧
    (∀ d u, lookupKV ctx.data k = some (.raw (.pydict d)) →
      v = .pydict u →
      ctx.merge_update [(k, v)] ow =
        match mergeRaw ow d u with
        | .error e => .error e
        | .ok d2 =>
            .ok { ctx with data := dictSet ctx.data k (.raw (.pydict d2)) }) ∧
    (∀ e, lookupKV ctx.data k = some e →
      (entryIsMapping e && v.isDict) = false → ow = false →
      ctx.merge_update [(k, v)] ow = .error (.conflict k)) ∧
    (∀ e, lookupKV ctx.data k = some e →
      (entryIsMapping e && v.isDict) = false → ow = true →
      ctx.merge_update [(k, v)] ow =
        .ok { ctx with data := dictSet ctx.data k (.raw v) }) := by
  refine ⟨?_, ?_, ?_, ?_⟩
  · intro m2 kvs2 u hlook hv
    subst hv
    have h := mergeTop_single_cdict ctx.data k u ow m2 kvs2 hlook
    cases hmc : mergeCtx ow m2 kvs2 u <;>
      simp [Context.merge_update, h, hmc]
  · intro d u hlook hv
    subst hv
    have h := mergeTop_single_rawdict ctx.data k u ow d hlook
    cases hmr : mergeRaw ow d u <;>
      simp [Context.merge_update, h, hmr]
  · intro e hlook hnm how
    subst how
    have h := mergeTop_single_other ctx.data k v false e hlook hnm
    simp [Context.merge_update, h]
  · intro e hlook hnm how
    subst how
    have h := mergeTop_single_other ctx.data k v true e hlook hnm
    simp [Context.merge_update, h]

/-- C6 witness: a colliding scalar key conflicts without overwrite and
is replaced with overwrite; a nested-map key merges recursively. -/
theorem c6_merge_update_key_semantics_witness :
    (mkContext [("a", .pyint 1)]).merge_update [("a", .pyint 2)] false =
      .error (.conflict "a") ∧
    (mkContext [("a", .pyint 1)]).merge_update [("a", .pyint 2)] true =
      .ok { mkContext [("a", .pyint 1)] with
              data := [("a", .raw (.pyint 2))] } ∧
    (mkContext [("a", .pydict [("b", .pyint 1)])]).merge_update
        [("a", .pydict [("c", .pyint 2)])] false =
      .ok { mkContext [("a", .pydict [("b", .pyint 1)])] with
              data := [("a", .node (.cdict ⟨none, ["a"]⟩
                [("b", .node (.value (.pyint 1) ⟨none, ["a", "b"]⟩)),
                 ("c", .node (.value (.pyint 2) ⟨none, ["a", "c"]⟩))]))] } := by
  have h1 := (c6_merge_update_key_semantics (mkContext [("a", .pyint 1)])
      "a" (.pyint 2) false).2.2.1
      (.node (.value (.pyint 1) ⟨none, ["a"]⟩)) rfl rfl rfl
  have h2 := (c6_merge_update_key_semantics (mkContext [("a", .pyint 1)])
      "a" (.pyint 2) true).2.2.2
      (.node (.value (.pyint 1) ⟨none, ["a"]⟩)) rfl rfl rfl
  have h3 := (c6_merge_update_key_semantics
      (mkContext [("a", .pydict [("b", .pyint 1)])])
      "a" (.pydict [("c", .pyint 2)]) false).1
      ⟨none, ["a"]⟩ [("b", .node (.value (.pyint 1) ⟨none, ["a", "b"]⟩))]
      [("c", .pyint 2)] rfl rfl
  refine ⟨h1, h2, ?_⟩
  rw [h3]
  simp [mergeCtx, lookupKV, dictSet, convertRaw, mkContext, ctxOfData,
    Meta.update_path]

/-- C7: select splits the dotted path on dots and walks one segment at
a time, using each stripped segment as a string key into a map node and
as an int()-parsed index into a list node, returning the addressed
slot; a segment that cannot be resolved (key not found, index out of
range) raises a lookup failure naming that segment and the container
holding its current contents. -/
theorem c7_select_walks_dotted_path (m : Meta) :
    (∀ (n : CtxNode) (key : String),
      containerSelect n key = selectSegs n (splitDots key.data)) ∧
    (∀ (kvs : List (String × Entry)) (seg0 : List Char) (e : Entry),
      lookupKV kvs (String.mk (stripChars seg0)) = some e →
      selectSegs (.cdict m kvs) [seg0] = .ok e) ∧
    (∀ (kvs : List (String × Entry)) (seg0 : List Char)
        (rest : List (List Char)) (n2 : CtxNode),
      lookupKV kvs (String.mk (stripChars seg0)) = some (.node n2) →
      rest ≠ [] →
      selectSegs (.cdict m kvs) (seg0 :: rest) = selectSegs n2 rest) ∧
    (∀ (kvs : List (String × Entry)) (seg0 : List Char)
        (rest : List (List Char)),
      lookupKV kvs (String.mk (stripChars seg0)) = none →
      selectSegs (.cdict m kvs) (seg0 :: rest) =
        .error (.lookupErr (String.mk (stripChars seg0)) (.cdict m kvs))) ∧
    (∀ (xs : List CtxNode) (seg0 : List Char) (i : Int) (n2 : CtxNode),
      parseInt (stripChars seg0) = some i →
      pyIdx xs i = some n2 →
      selectSegs (.clist m xs) [seg0] = .ok (.node n2)) ∧
    (∀ (xs : List CtxNode) (seg0 : List Char)
        (rest : List (List Char)) (i : Int) (n2 : CtxNode),
      parseInt (stripChars seg0) = some i →
      pyIdx xs i = some n2 → rest ≠ [] →
      selectSegs (.clist m xs) (seg0 :: rest) = selectSegs n2 rest) ∧
    (∀ (xs : List CtxNode) (seg0 : List Char)
        (rest : List (List Char)) (i : Int),
      parseInt (stripChars seg0) = some i →
      pyIdx xs i = none →
      selectSegs (.clist m xs) (seg0 :: rest) =
        .error (.lookupErr (toString i) (.clist m xs))) := by
  refine ⟨fun n key => rfl, ?_, ?_, ?_, ?_, ?_, ?_⟩
  · intro kvs seg0 e hl
    simp [selectSegs, hl]
  · intro kvs seg0 rest n2 hl hr
    rcases rest with _ | ⟨r, rs⟩
    · exact absurd rfl hr
    · simp [selectSegs, hl]
  · intro kvs seg0 rest hl
    rcases rest with _ | ⟨r, rs⟩ <;> simp [selectSegs, hl]
  · intro xs seg0 i n2 hp hi
    simp [selectSegs, hp, hi]
  · intro xs seg0 rest i n2 hp hi hr
    rcases rest with _ | ⟨r, rs⟩
    · exact absurd rfl hr
    · simp [selectSegs, hp, hi]
  · intro xs seg0 rest i hp hi
    rcases rest with _ | ⟨r, rs⟩ <;> simp [selectSegs, hp, hi]

/-- C7 witness: the nested lookup and list-indexing fixtures of the
spec, plus a missing-key failure naming segment and container. -/
theorem c7_select_walks_dotted_path_witness :
    containerSelect demoTree "dict.nested.string" =
      .ok (.node (.value (.pystr "bar") ⟨none, ["dict", "nested", "string"]⟩)) ∧
    containerSelect demoListTree "dict.0.f" =
      .ok (.node (.value (.pystr "f") ⟨none, ["dict", "0", "f"]⟩)) ∧
    containerSelect demoTree "missing" =
      .error (.lookupErr "missing" demoTree) ∧
    containerSelect demoListTree "dict.5" =
      .error (.lookupErr (toString (5 : Int))
        (.clist ⟨none, ["dict"]⟩
          [.cdict ⟨none, ["dict", "0"]⟩
            [("f", .node (.value (.pystr "f") ⟨none, ["dict", "0", "f"]⟩))]])) := by
  have h1 := (c7_select_walks_dotted_path
      (⟨none, ["dict", "nested"]⟩ : Meta)).2.1
      [("string",
        Entry.node (.value (.pystr "bar") ⟨none, ["dict", "nested", "string"]⟩))]
      ['s', 't', 'r', 'i', 'n', 'g']
      (Entry.node (.value (.pystr "bar") ⟨none, ["dict", "nested", "string"]⟩))
      rfl
  have h2 := (c7_select_walks_dotted_path
      (⟨none, ["dict", "0"]⟩ : Meta)).2.1
      [("f", Entry.node (.value (.pystr "f") ⟨none, ["dict", "0", "f"]⟩))]
      ['f']
      (Entry.node (.value (.pystr "f") ⟨none, ["dict", "0", "f"]⟩))
      rfl
  have h3 := (c7_select_walks_dotted_path (⟨none, []⟩ : Meta)).2.2.2.1
      [("dict",
        Entry.node (.cdict ⟨none, ["dict"]⟩
          [("nested",
            Entry.node (.cdict ⟨none, ["dict", "nested"]⟩
              [("string",
                Entry.node
                  (.value (.pystr "bar") ⟨none, ["dict", "nested", "string"]⟩))]))]))]
      ['m', 'i', 's', 's', 'i', 'n', 'g'] [] rfl
  have h4 := (c7_select_walks_dotted_path
      (⟨none, ["dict"]⟩ : Meta)).2.2.2.2.2.2
      [CtxNode.cdict ⟨none, ["dict", "0"]⟩
        [("f", Entry.node (.value (.pystr "f") ⟨none, ["dict", "0", "f"]⟩))]]
      ['5'] [] 5 rfl rfl
  exact ⟨h1, h2, h3, h4⟩

/-- C8 counterexample: with tracking on, selecting a MAP node whose
Meta carries a non-null source records nothing: CtxDict inherits the
empty get_sources of Container, so the returned context is unchanged
and its ledger stays empty. -/
theorem c8_select_tracking_counterexample :
    demoTrackCtx.track = true ∧
    demoTrackCtx.select "d" =
      .ok (.node (.cdict ⟨some "params.yaml", ["d"]⟩
            [("x", .node (.value (.pyint 1) ⟨some "params.yaml", ["d", "x"]⟩))]),
        demoTrackCtx) ∧
    (CtxNode.cdict ⟨some "params.yaml", ["d"]⟩
        [("x", .node (.value (.pyint 1) ⟨some "params.yaml", ["d", "x"]⟩))]).meta.source =
      some "params.yaml" ∧
    demoTrackCtx.tracked_data = [] :=
  ⟨rfl, rfl, rfl, rfl⟩

/-- C8 amended: with tracking enabled, a successful select records
(source, path) into the ledger when the resolved node is a Value leaf
or a CtxList with a truthy source; a Value with a null (or empty)
source records nothing, and a resolved MAP node records nothing at all
(its get_sources is empty); the tracked accessor keeps exactly one
record per distinct source. -/
theorem c8_context_select_tracking
    (ctx : Context) (key : String) (ent : Entry) (ctx2 : Context)
    (htrack : ctx.track = true)
    (hsel : ctx.select key = .ok (ent, ctx2)) :
    (∀ v mv, ent = .node (.value v mv) → ∀ s, mv.source = some s → s ≠ "" →
      ctx2.tracked_data = unionAt ctx.tracked_data s [mv.path]) ∧
    (∀ v mv, ent = .node (.value v mv) →
      (mv.source = none ∨ mv.source = some "") →
      ctx2.tracked_data = ctx.tracked_data) ∧
    (∀ mv xs, ent = .node (.clist mv xs) → ∀ s, mv.source = some s → s ≠ "" →
      ctx2.tracked_data = unionAt ctx.tracked_data s [mv.path]) ∧
    (∀ mv kvs, ent = .node (.cdict mv kvs) →
      ctx2.tracked_data = ctx.tracked_data) ∧
    ((ctx.tracked_data.map Prod.fst).Nodup →
      (ctx2.tracked.map Prod.fst).Nodup) := by
  have hnode : ∃ n, ent = .node n ∧ ctx2 = trackData ctx n := by
    unfold Context.select at hsel
    cases hcs : containerSelect (.cdict ctx.meta ctx.data) key with
    | error e => simp [hcs] at hsel
    | ok ent0 =>
        cases ent0 with
        | node n =>
            rw [hcs] at hsel
            have h := Except.ok.inj hsel
            exact ⟨n, (Prod.ext_iff.mp h).1.symm, (Prod.ext_iff.mp h).2.symm⟩
        | raw v => rw [hcs, htrack] at hsel; simp at hsel
  obtain ⟨n, hent, hctx2⟩ := hnode
  subst hent
  subst hctx2
  refine ⟨?_, ?_, ?_, ?_, ?_⟩
  · intro v mv he s hs hs'
    injection he with h
    subst h
    simp [trackData, htrack, nodeSources, hs, hs']
  · intro v mv he hsrc
    injection he with h
    subst h
    rcases hsrc with h0 | h0 <;> simp [trackData, htrack, nodeSources, h0]
  · intro mv xs he s hs hs'
    injection he with h
    subst h
    simp [trackData, htrack, nodeSources, hs, hs']
  · intro mv kvs he
    injection he with h
    subst h
    simp [trackData, htrack, nodeSources]
  · intro hnd
    show ((trackData ctx n).tracked_data.map Prod.fst).Nodup
    cases n with
    | value v mv =>
        cases hs : mv.source with
        | none => simpa [trackData, htrack, nodeSources, hs] using hnd
        | some s =>
            by_cases hs' : s = ""
            · simpa [trackData, htrack, nodeSources, hs, hs'] using hnd
            · have h2 := nodup_dictSet ctx.tracked_data s
                (List.foldl setAdd ((lookupKV ctx.tracked_data s).getD [])
                  [mv.path]) hnd
              simpa [trackData, htrack, nodeSources, hs, hs', unionAt] using h2
    | clist mv xs =>
        cases hs : mv.source with
        | none => simpa [trackData, htrack, nodeSources, hs] using hnd
        | some s =>
            by_cases hs' : s = ""
            · simpa [trackData, htrack, nodeSources, hs, hs'] using hnd
            · have h2 := nodup_dictSet ctx.tracked_data s
                (List.foldl setAdd ((lookupKV ctx.tracked_data s).getD [])
                  [mv.path]) hnd
              simpa [trackData, htrack, nodeSources, hs, hs', unionAt] using h2
    | cdict mv kvs => simpa [trackData, htrack, nodeSources] using hnd

/-- C8 amended witness: selecting a Value leaf with a file source
records (source, path) into the ledger. -/
theorem c8_context_select_tracking_witness :
    demoTrackCtx.select "v" =
      .ok (.node (.value (.pyint 7) ⟨some "params.yaml", ["v"]⟩),
        { demoTrackCtx with tracked_data := [("params.yaml", ["v"])] }) ∧
    ({ demoTrackCtx with
        tracked_data := [("params.yaml", ["v"])] } : Context).tracked_data =
      unionAt demoTrackCtx.tracked_data "params.yaml" ["v"] := by
  have h := (c8_context_select_tracking demoTrackCtx "v"
      (.node (.value (.pyint 7) ⟨some "params.yaml", ["v"]⟩))
      { demoTrackCtx with tracked_data := [("params.yaml", ["v"])] }
      rfl rfl).1 (.pyint 7) ⟨some "params.yaml", ["v"]⟩ rfl "params.yaml" rfl
      (by simp)
  exact ⟨rfl, h⟩

/-- C9 counterexample: merge_update writes into the backing dict
directly, so a fresh top-level key stores the incoming value raw, with
no Meta at all: the tree built by Context({a: 1}) satisfies the
path-extension invariant, and after merging {b: {c: 2}} with overwrite
the tree violates it, the b slot holding an unconverted raw dict. -/
theorem c9_merge_update_breaks_invariant :
    rootInvB (mkContext [("a", .pyint 1)]) = true ∧
    (mkContext [("a", .pyint 1)]).merge_update
        [("b", .pydict [("c", .pyint 2)])] true =
      .ok { mkContext [("a", .pyint 1)] with
        data := [("a", .node (.value (.pyint 1) ⟨none, ["a"]⟩)),
                 ("b", .raw (.pydict [("c", .pyint 2)]))] } ∧
    rootInvB { mkContext [("a", .pyint 1)] with
        data := [("a", .node (.value (.pyint 1) ⟨none, ["a"]⟩)),
                 ("b", .raw (.pydict [("c", .pyint 2)]))] } = false ∧
    lookupKV
        ([("a", Entry.node (.value (.pyint 1) ⟨none, ["a"]⟩)),
          ("b", Entry.raw (.pydict [("c", .pyint 2)]))] :
          List (String × Entry)) "b" =
      some (Entry.raw (.pydict [("c", .pyint 2)])) :=
  ⟨rfl, rfl, rfl, rfl⟩

theorem listInv_aux (xs : List PyVal)
    (hx : ∀ x ∈ xs, ∀ m2 : Meta, nodeInvB m2 (convertRaw m2 x) = true) :
    ∀ (i : Nat) (m : Meta), listInvB m i (convertListAux m i xs) = true := by
  induction xs with
  | nil => intro i m; rfl
  | cons x xs ih =>
      intro i m
      have h1 := hx x (by simp) (m.update_path (toString i))
      have h2 := ih (fun y hy m2 => hx y (by simp [hy]) m2) (i + 1) m
      simp [convertListAux, listInvB, h1, h2]

theorem dictInv_aux (kvs : List (String × PyVal))
    (hx : ∀ kv ∈ kvs, ∀ m2 : Meta, nodeInvB m2 (convertRaw m2 kv.2) = true) :
    ∀ m : Meta, dictInvB m (convertDictAux m kvs) = true := by
  induction kvs with
  | nil => intro m; rfl
  | cons kv kvs ih =>
      intro m
      obtain ⟨k, x⟩ := kv
      have h1 := hx (k, x) (by simp) (m.update_path k)
      have h2 := ih (fun y hy m2 => hx y (by simp [hy]) m2) m
      simp [convertDictAux, dictInvB, h1, h2]

theorem convertRaw_nodeInv : ∀ (v : PyVal) (m : Meta),
    nodeInvB m (convertRaw m v) = true := by
  suffices H : ∀ (n : Nat) (v : PyVal), sizeOf v ≤ n → ∀ m : Meta,
      nodeInvB m (convertRaw m v) = true by
    exact fun v m => H (sizeOf v) v le_rfl m
  intro n
  induction n using Nat.strong_induction_on with
  | _ n ih =>
      intro v hv m
      cases v with
      | pynone => simp [convertRaw, nodeInvB]
      | pybool b => simp [convertRaw, nodeInvB]
      | pyint k => simp [convertRaw, nodeInvB]
      | pyfloat q => simp [convertRaw, nodeInvB]
      | pystr s => simp [convertRaw, nodeInvB]
      | pylist xs =>
          have hx : ∀ x ∈ xs, ∀ m2 : Meta,
              nodeInvB m2 (convertRaw m2 x) = true := by
            intro x hmem m2
            have hlt : sizeOf x < sizeOf (PyVal.pylist xs) := by
              have := List.sizeOf_lt_of_mem hmem
              simp only [PyVal.pylist.sizeOf_spec]
              omega
            exact ih (sizeOf x) (by omega) x le_rfl m2
          simp [convertRaw, nodeInvB, listInv_aux xs hx 0 m]
      | pydict kvs =>
          have hx : ∀ kv ∈ kvs, ∀ m2 : Meta,
              nodeInvB m2 (convertRaw m2 kv.2) = true := by
            intro kv hmem m2
            obtain ⟨k, x⟩ := kv
            have hlt : sizeOf x < sizeOf (PyVal.pydict kvs) := by
              have h1 := List.sizeOf_lt_of_mem hmem
              have h3 : sizeOf ((k, x) : String × PyVal) =
                  1 + sizeOf k + sizeOf x := by simp
              simp only [PyVal.pydict.sizeOf_spec]
              omega
            exact ih (sizeOf x) (by omega) x le_rfl m2
          simp [convertRaw, nodeInvB, dictInv_aux kvs hx m]

theorem dictInvB_dictSet (m : Meta) (kvs : List (String × Entry))
    (k : String) (n : CtxNode)
    (h1 : dictInvB m kvs = true)
    (h2 : nodeInvB (m.update_path k) n = true) :
    dictInvB m (dictSet kvs k (.node n)) = true := by
  induction kvs with
  | nil => simp [dictSet, dictInvB, h2]
  | cons kv tl ih =>
      obtain ⟨k1, e⟩ := kv
      rcases e with n0 | v0
      · have h1' : nodeInvB (m.update_path k1) n0 = true ∧
            dictInvB m tl = true := by
          have hh : dictInvB m ((k1, Entry.node n0) :: tl) =
              (nodeInvB (m.update_path k1) n0 && dictInvB m tl) := rfl
          rw [hh, Bool.and_eq_true] at h1
          exact h1
        by_cases hk : k1 = k
        · subst hk
          have hd : dictSet ((k1, Entry.node n0) :: tl) k1 (.node n) =
              (k1, Entry.node n) :: tl := by simp [dictSet]
          rw [hd]
          have hh2 : dictInvB m ((k1, Entry.node n) :: tl) =
              (nodeInvB (m.update_path k1) n && dictInvB m tl) := rfl
          rw [hh2, Bool.and_eq_true]
          exact ⟨h2, h1'.2⟩
        · have hd : dictSet ((k1, Entry.node n0) :: tl) k (.node n) =
              (k1, Entry.node n0) :: dictSet tl k (.node n) := by
            simp [dictSet, hk]
          rw [hd]
          have hh2 : dictInvB m ((k1, Entry.node n0) :: dictSet tl k (.node n)) =
              (nodeInvB (m.update_path k1) n0 &&
                dictInvB m (dictSet tl k (.node n))) := rfl
          rw [hh2, Bool.and_eq_true]
          exact ⟨h1'.1, ih h1'.2⟩
      · exfalso
        have hh : dictInvB m ((k1, Entry.raw v0) :: tl) =
            (false && dictInvB m tl) := rfl
        rw [hh] at h1
        simp at h1

/-- C9 amended: every node built by the conversion path carries a Meta
equal to its parent Meta extended with exactly its own key or index,
recursively, for any raw value and for whole contexts built from raw
mappings.  (merge_update does NOT preserve this: see the
counterexample, where a top-level merged-in value is stored raw with no
Meta.) -/
theorem c9_conversion_meta_invariant :
    (∀ (v : PyVal) (m : Meta), nodeInvB m (convertRaw m v) = true) ∧
    (∀ (rm : Meta) (kvs : List (String × PyVal)),
      rootInvB (ctxOfData rm kvs) = true) := by
  refine ⟨convertRaw_nodeInv, ?_⟩
  intro rm kvs
  have gen : ∀ (acc : List (String × Entry)), dictInvB rm acc = true →
      dictInvB rm
        (kvs.foldl
          (fun d kv =>
            dictSet d kv.1 (.node (convertRaw (rm.update_path kv.1) kv.2)))
          acc) = true := by
    induction kvs with
    | nil => intro acc hacc; simpa using hacc
    | cons kv tl ih =>
        intro acc hacc
        obtain ⟨k, x⟩ := kv
        exact ih _ (dictInvB_dictSet rm acc k _ hacc (convertRaw_nodeInv x _))
  exact gen [] rfl

theorem clone_fold (data : List (String × Entry)) :
    ∀ acc : List (String × Entry),
    (∀ kv ∈ data, entryIsNode kv.2 = true) →
    (data.map Prod.fst).Nodup →
    (∀ kv ∈ data, lookupKV acc kv.1 = none) →
    data.foldl
      (fun d kv => dictSet d kv.1 (.node (convertEntry ⟨none, []⟩ kv.1 kv.2)))
      acc = acc ++ data := by
  induction data with
  | nil => intro acc _ _ _; simp
  | cons kv tl ih =>
      intro acc hnode hnd hdisj
      obtain ⟨k, e⟩ := kv
      rcases e with n0 | v0
      · rw [List.map_cons] at hnd
        have hnd' := List.nodup_cons.mp hnd
        rw [List.foldl_cons]
        have hstep :
            dictSet acc k (.node (convertEntry ⟨none, []⟩ k (Entry.node n0))) =
              acc ++ [(k, Entry.node n0)] :=
          dictSet_eq_append acc k _ (hdisj (k, Entry.node n0) (by simp))
        rw [hstep]
        rw [ih (acc ++ [(k, Entry.node n0)])
          (fun y hy => hnode y (by simp [hy]))
          hnd'.2
          ?_]
        · simp
        · intro y hy
          rw [lookupKV_append, hdisj y (by simp [hy])]
          have hne : ¬(k = y.1) := by
            intro hcontra
            apply hnd'.1
            rw [hcontra]
            exact List.mem_map.mpr ⟨y, hy, rfl⟩
          simp [lookupKV, hne]
      · have hc := hnode (k, .raw v0) (by simp)
        simp [entryIsNode] at hc

/-- C10: clone returns a fresh Context whose data equals the source
data (every converted child node keeps its Meta, source and path,
because _convert passes existing nodes through unchanged), whose
tracked ledger starts empty whatever the source ledger held, whose
track flag is off, and whose root Meta has a null source even when the
source context was loaded from a file. -/
theorem c10_clone_resets_root_keeps_child_meta (ctx : Context)
    (hconv : ∀ kv ∈ ctx.data, entryIsNode kv.2 = true)
    (hkeys : (ctx.data.map Prod.fst).Nodup) :
    (ctx.clone).data = ctx.data ∧
    (ctx.clone).tracked_data = [] ∧
    (ctx.clone).meta = ⟨none, []⟩ ∧
    (ctx.clone).track = false := by
  refine ⟨?_, rfl, rfl, rfl⟩
  have h := clone_fold ctx.data [] hconv hkeys (fun kv _ => rfl)
  show ctx.data.foldl
      (fun d kv => dictSet d kv.1 (.node (convertEntry ⟨none, []⟩ kv.1 kv.2)))
      [] = ctx.data
  rw [h]
  simp

/-- C10 witness: cloning a file-loaded, tracking-active context keeps
the child Meta (source and path) but clears the ledger and the root
source. -/
theorem c10_clone_resets_root_keeps_child_meta_witness :
    demoCloneCtx.meta = ⟨some "params.yaml", []⟩ ∧
    demoCloneCtx.tracked_data = [("params.yaml", ["a"])] ∧
    demoCloneCtx.clone.data = demoCloneCtx.data ∧
    demoCloneCtx.clone.tracked_data = [] ∧
    demoCloneCtx.clone.meta = ⟨none, []⟩ := by
  have h := c10_clone_resets_root_keeps_child_meta demoCloneCtx
    (by decide) (by decide)
  exact ⟨rfl, rfl, h.1, h.2.1, h.2.2.1⟩

/-- C2: formatting a template that is exactly one placeholder over a
context binding x to a primitive value returns that value itself, with
its original type preserved, not a string coercion (and leaves the
context as it was). -/
theorem c2_format_single_placeholder_preserves_type (v : PyVal)
    (h : v.isScalar = true) :
    (mkContext [("x", v)]).format "${x}" =
      .ok (.out v, mkContext [("x", v)]) := by
  cases v <;> first | rfl | simp [PyVal.isScalar] at h

/-- C2 witness: a boolean keeps its type through a full-span
placeholder. -/
theorem c2_format_single_placeholder_preserves_type_witness :
    PyVal.isScalar (.pybool true) = true ∧
    (mkContext [("x", .pybool true)]).format "${x}" =
      .ok (.out (.pybool true), mkContext [("x", .pybool true)]) :=
  ⟨rfl, c2_format_single_placeholder_preserves_type (.pybool true) rfl⟩

/-- C3: evaluating _add_source at a nested interpolated String that
carries provenance shows the provenance being discarded, not folded in:
an enclosing String with an empty map stays empty, an enclosing String
with existing provenance keeps exactly its old map, and the
String-construction fold behaves the same, even though the nested
value has a nonempty provenance map. -/
theorem c3_add_source_drops_nested_string_provenance :
    addSource [] (.rstring ⟨"foo", [("params.yaml", ["a"])]⟩) = [] ∧
    addSource [("other.yaml", ["b"])]
        (.rstring ⟨"foo", [("params.yaml", ["a"])]⟩) =
      [("other.yaml", ["b"])] ∧
    strInit
        [Sum.inl "pre ",
         Sum.inr (.rstring ⟨"foo", [("params.yaml", ["a"])]⟩)] =
      ⟨"pre foo", []⟩ ∧
    ([("params.yaml", ["a"])] : List (String × List String)) ≠ [] := by
  refine ⟨rfl, rfl, rfl, by simp⟩

end Dvc
